import Mathlib

/-!
Verification of the `emoji-kitchen-scan` pipeline (`emoji-kitchen-scan.py`).

Shallow embedding conventions:

* A Python string used as a *query* or *symbol* is a sequence of code points,
  modelled as `List Char` (symbols are single code points, hence `Char`);
  Python's lexicographic string comparison is the lexicographic order on
  `List Char`.
* Python's `list.sort()` is modelled by `List.insertionSort (· ≤ ·)` (any
  correct stable sort; only sortedness/permutation facts are used).
* `itertools.combinations(l, 2)` is `combinations2 l`.
* A Python `frozenset`/`set` of symbols is modelled as a duplicate-free list
  in (implementation-defined) iteration order.
* The sqlite database is a `Db` record of created tables/indexes and the row
  lists of the two tables; `INSERT` appends a row.
* Fatal Python exceptions (`AssertionError` from `assert`, `IndexError` from
  out-of-range indexing) are modelled with `Except PyError`.
* JSON values decoded by `requests.get(url).json()` are modelled by `JValue`
  (note that in Python `bool` is a subclass of `int`, and truthiness of a
  value is emptiness/zero testing; both are modelled explicitly).
-/

namespace EmojiKitchenScan

/-- Fatal Python exceptions that the scanner can raise. -/
inductive PyError where
  | assertionError
  | indexError
deriving DecidableEq, Repr

/-- Python/JSON values, as decoded by `json()` (the fragment the scanner touches). -/
inductive JValue where
  | null
  | bool (b : Bool)
  | int (n : Int)
  | str (s : List Char)
  | list (elems : List JValue)
deriving Repr

namespace JValue

/-- Python truthiness (`bool(v)`): `None`, `False`, `0`, `""` and `[]` are falsy. -/
def pytruthy : JValue → Bool
  | .null => false
  | .bool b => b
  | .int n => n != 0
  | .str s => !s.isEmpty
  | .list l => !l.isEmpty

/-- Python `isinstance(v, str)`. -/
def isStr : JValue → Bool
  | .str _ => true
  | _ => false

/-- Python `isinstance(v, int)`; `bool` is a subclass of `int` in Python. -/
def isInt : JValue → Bool
  | .int _ => true
  | .bool _ => true
  | _ => false

/-- Python `isinstance(v, list)`. -/
def isList : JValue → Bool
  | .list _ => true
  | _ => false

/-- The string payload of a value known to be a `str`. -/
def asStr : JValue → List Char
  | .str s => s
  | _ => []

/-- The integer payload of a value known to be an `int` (Python `True = 1`, `False = 0`). -/
def asInt : JValue → Int
  | .int n => n
  | .bool b => if b then 1 else 0
  | _ => 0

/-- The element list of a value known to be a `list`. -/
def asList : JValue → List JValue
  | .list l => l
  | _ => []

end JValue

/-- `itertools.combinations(l, 2)`: all pairs of elements at positions `i < j`,
in the iteration order of `l`. -/
def combinations2 {α : Type} : List α → List (α × α)
  | [] => []
  | x :: xs => (xs.map fun y => (x, y)) ++ combinations2 xs

/-- The query list accumulated by `emoji_kitchen_build_queries` before the final
`queries.sort()`: each symbol alone, each symbol joined with itself by `'_'`,
and for every `combinations` pair both orderings joined by `'_'`. -/
def rawQueries (symbols : List Char) : List (List Char) :=
  (symbols.map fun s => [s])
    ++ (symbols.map fun s => [s, '_', s])
    ++ ((combinations2 symbols).flatMap fun p => [[p.1, '_', p.2], [p.2, '_', p.1]])

/-- `emoji_kitchen_build_queries` (lines 65-81): accumulate the singleton,
self-pair and both-orderings pair queries, then sort the list. -/
def emoji_kitchen_build_queries (symbols : List Char) : List (List Char) :=
  List.insertionSort (· ≤ ·) (rawQueries symbols)

/-- Adding one element to a Python `set`, modelled as a duplicate-free list in
insertion order (one concrete instance of the implementation-defined iteration
order of Python sets). -/
def setInsert {α : Type} [DecidableEq α] (l : List α) (a : α) : List α :=
  if a ∈ l then l else l ++ [a]

/-- Python `set(...)`/`frozenset(...)` built from an iterable. -/
def setOfList {α : Type} [DecidableEq α] (l : List α) : List α :=
  l.foldl setInsert []

/-- `EmojiKitchenSticker` (lines 29-40): `id`, the frozenset of symbols
(modelled as a duplicate-free list in iteration order), `url` and
`created_time`.  Python strings are `List Char`. -/
structure EmojiKitchenSticker where
  id : List Char
  symbols : List Char
  url : List Char
  created_time : Int
deriving DecidableEq, Repr

/-- `EmojiKitchenSticker.__eq__` (lines 36-37): equality by `id` alone. -/
def stickerEq (a b : EmojiKitchenSticker) : Bool :=
  a.id == b.id

/-- `EmojiKitchenSticker.__hash__` (lines 39-40): `hash(self.id)`. -/
def stickerHash (s : EmojiKitchenSticker) : UInt64 :=
  hash s.id

/-- Adding one sticker to the in-memory `Set[EmojiKitchenSticker]`; membership
is decided by `__eq__`/`__hash__`, and an already-present element is kept. -/
def stickerInsert (acc : List EmojiKitchenSticker) (s : EmojiKitchenSticker) :
    List EmojiKitchenSticker :=
  if acc.any fun t => stickerEq t s then acc else acc ++ [s]

/-- `stickers.update(iterable)` (line 167). -/
def stickerUpdate (acc new : List EmojiKitchenSticker) : List EmojiKitchenSticker :=
  new.foldl stickerInsert acc

/-- The sqlite output database: the names of created tables and indexes, and
the rows of the two tables (`stickers` rows are `(id, symbols, url,
created_time)`; `sticker_lookup` rows are `(symbol1, symbol2, sticker_id)`). -/
structure Db where
  tables : List String
  indexes : List String
  stickers : List (List Char × List Char × List Char × Int)
  sticker_lookup : List (Char × Char × List Char)
deriving DecidableEq, Repr

/-- A freshly created database file (`sqlite3.connect` on a new path). -/
def Db.empty : Db :=
  ⟨[], [], [], []⟩

/-- `CREATE TABLE IF NOT EXISTS` / `CREATE INDEX IF NOT EXISTS` on the list of
existing names. -/
def createIfNotExists (names : List String) (n : String) : List String :=
  if n ∈ names then names else names ++ [n]

/-- `init_db_schema` (lines 117-125): create the `stickers` table and its
index, then the `sticker_lookup` table and its index, each if absent. -/
def init_db_schema (db : Db) : Db :=
  let db := { db with tables := createIfNotExists db.tables "stickers" }
  let db := { db with indexes := createIfNotExists db.indexes "idx_stickers" }
  let db := { db with tables := createIfNotExists db.tables "sticker_lookup" }
  { db with indexes := createIfNotExists db.indexes "idx_sticker_lookup" }

/-- `db_write_sticker` (lines 128-144): insert one `stickers` row (the symbols
serialized by `''.join`, i.e. the concatenation of the set's characters in
iteration order), return early when the symbol list is empty, double a
singleton symbol list, and insert one `sticker_lookup` row per
`combinations(symbols, 2)` pair. -/
def db_write_sticker (db : Db) (sticker : EmojiKitchenSticker) : Db :=
  let db := { db with stickers :=
    db.stickers ++ [(sticker.id, sticker.symbols, sticker.url, sticker.created_time)] }
  let symbols := sticker.symbols
  if symbols.isEmpty then db
  else
    let symbols := if symbols.length == 1 then symbols ++ symbols else symbols
    { db with sticker_lookup :=
        db.sticker_lookup ++ (combinations2 symbols).map fun p => (p.1, p.2, sticker.id) }

/-- One entry of `data["results"]`: a JSON object, of which the scanner reads
the four keys `id`, `url`, `created` and `tags` (`none` = key absent). -/
structure ResultEntry where
  id : Option JValue
  url : Option JValue
  created : Option JValue
  tags : Option JValue

/-- The top-level `error` object of a response: its `code` field, if any, plus
whether the object carries any other fields (which decides its truthiness). -/
structure ErrorObj where
  code : Option Int
  hasOtherFields : Bool

/-- Python truthiness of the `error` dict (`{}` is falsy). -/
def ErrorObj.pytruthy (e : ErrorObj) : Bool :=
  e.code.isSome || e.hasOtherFields

/-- A decoded top-level response: the optional `error` object and the
`results` list (`data.get("results", [])` turns an absent key into `[]`). -/
structure ApiResponse where
  error : Option ErrorObj
  results : List ResultEntry

/-- Truthiness of `data.get('error')` (`None`, hence falsy, when absent). -/
def errorTruthy : Option ErrorObj → Bool
  | none => false
  | some e => e.pytruthy

/-- The value of `data.get('error', {}).get('code')`. -/
def errorCode : Option ErrorObj → Option Int
  | none => none
  | some e => e.code

/-- The list of `tag[0]` for the tags, in order: the generator
`(tag[0] for tag in tags)` as consumed by `frozenset`, where indexing an empty
string raises `IndexError`. -/
def firstChars : List JValue → Except PyError (List Char)
  | [] => .ok []
  | tag :: rest =>
    match tag.asStr with
    | [] => .error .indexError
    | c :: _ =>
      match firstChars rest with
      | .ok cs => .ok (c :: cs)
      | .error e => .error e

/-- The body of the `for result in data.get("results", [])` loop of
`emoji_kitchen_query` (lines 97-113): the four `assert`s (note each one also
requires the value to be truthy), the derivation of `symbols` as the frozenset
of first characters of the tags, and the constructed sticker. -/
def parseResult (result : ResultEntry) : Except PyError EmojiKitchenSticker :=
  let idv := result.id.getD .null
  if !(idv.pytruthy && idv.isStr) then .error .assertionError else
  let urlv := result.url.getD .null
  if !(urlv.pytruthy && urlv.isStr) then .error .assertionError else
  let cv := result.created.getD .null
  if !(cv.pytruthy && cv.isInt) then .error .assertionError else
  let tv := result.tags.getD .null
  if !(tv.pytruthy && tv.isList && tv.asList.all JValue.isStr) then .error .assertionError else
  match firstChars tv.asList with
  | .error e => .error e
  | .ok cs => .ok ⟨idv.asStr, setOfList cs, urlv.asStr, cv.asInt⟩

/-- The result entries parsed in order; the lazy generator is modelled by the
list of all yielded stickers (the caller consumes it in full), a raised
exception aborting the traversal. -/
def parseResults : List ResultEntry → Except PyError (List EmojiKitchenSticker)
  | [] => .ok []
  | r :: rest =>
    match parseResult r with
    | .error e => .error e
    | .ok st =>
      match parseResults rest with
      | .ok sts => .ok (st :: sts)
      | .error e => .error e

/-- `emoji_kitchen_query` (lines 89-114) applied to an already-decoded JSON
response: the top-level assert tolerating only a falsy `error` value or an
error object whose `code` equals 404 — an absent `error` key defaults to the
falsy empty dict — followed by the per-result parsing loop. -/
def emoji_kitchen_query (data : ApiResponse) : Except PyError (List EmojiKitchenSticker) :=
  if !(!errorTruthy data.error || errorCode data.error == some 404) then
    .error .assertionError
  else
    parseResults data.results

/-- The accumulation loop of `read_emoji_csv` (lines 45-50): for every parsed
csv row, take `line[0][0]` — raising `IndexError` on an empty row or an empty
first field — and add it to the `symbols` set. -/
def collectSymbols : List (List (List Char)) → List Char → Except PyError (List Char)
  | [], acc => .ok acc
  | line :: rest, acc =>
    match line with
    | [] => .error .indexError
    | f :: _ =>
      match f with
      | [] => .error .indexError
      | c :: _ => collectSymbols rest (setInsert acc c)

/-- `ALLOWED_CATEGORIES` (lines 22-23). -/
def ALLOWED_CATEGORIES : List String :=
  ["Animals & Nature", "Objects", "Food & Drink", "Smileys & Emotion", "Symbols",
    "Travel & Places", "People & Body"]

/-- `read_emoji_csv` (lines 43-62): collect the first character of each row's
first field into a set, resolve each symbol through the external emoji
database (the collaborator `get_emoji_by_code`, modelled as a function from a
symbol to its category, if any), and keep the symbols whose category is in the
allow-list.  The intermediate `emoji_map` dict preserves the set's iteration
order, so the result is the set list filtered in place. -/
def read_emoji_csv (category : Char → Option String) (rows : List (List (List Char))) :
    Except PyError (List Char) :=
  match collectSymbols rows [] with
  | .error e => .error e
  | .ok symbols =>
    .ok (symbols.filter fun s =>
      match category s with
      | some cat => decide (cat ∈ ALLOWED_CATEGORIES)
      | none => false)

/-- The fetch loop of `main` (lines 166-167): queries are processed in order,
each fetch's stickers merged into the set; a fatal error aborts the run. -/
def scanQueries (respond : List Char → ApiResponse) :
    List (List Char) → List EmojiKitchenSticker → Except PyError (List EmojiKitchenSticker)
  | [], acc => .ok acc
  | q :: rest, acc =>
    match emoji_kitchen_query (respond q) with
    | .error e => .error e
    | .ok fetched => scanQueries respond rest (stickerUpdate acc fetched)

/-- `main` (lines 157-180) for a fresh run, parameterized by the two external
collaborators: the emoji-category lookup and the search endpoint (a decoded
JSON response per query; the network fetch itself is I/O glue).  The output
database is opened, initialized and written only after the full scan has
accumulated the in-memory sticker set; the progress bar is cosmetic. -/
def main_run (category : Char → Option String) (rows : List (List (List Char)))
    (respond : List Char → ApiResponse) : Except PyError Db :=
  match read_emoji_csv category rows with
  | .error e => .error e
  | .ok supported_emojis =>
    let queries := emoji_kitchen_build_queries supported_emojis
    match scanQueries respond queries [] with
    | .error e => .error e
    | .ok stickers =>
      let db := init_db_schema Db.empty
      .ok (stickers.foldl db_write_sticker db)

section Combinations2Lemmas

variable {α : Type}

theorem combinations2_length (l : List α) :
    2 * (combinations2 l).length = l.length * (l.length - 1) := by
  induction l with
  | nil => rfl
  | cons x xs ih =>
    simp only [combinations2, List.length_append, List.length_map, List.length_cons,
      Nat.add_sub_cancel, Nat.mul_add, ih]
    cases xs with
    | nil => rfl
    | cons y ys =>
      simp only [List.length_cons, Nat.add_sub_cancel]
      ring

theorem combinations2_mem {l : List α} {p : α × α} (h : p ∈ combinations2 l) :
    p.1 ∈ l ∧ p.2 ∈ l := by
  induction l with
  | nil => simp [combinations2] at h
  | cons x xs ih =>
    simp only [combinations2, List.mem_append, List.mem_map] at h
    rcases h with ⟨y, hy, hp⟩ | h
    · subst hp
      exact ⟨List.mem_cons_self _ _, List.mem_cons_of_mem _ hy⟩
    · exact ⟨List.mem_cons_of_mem _ (ih h).1, List.mem_cons_of_mem _ (ih h).2⟩

theorem combinations2_ne {l : List α} (hl : l.Nodup) {a b : α}
    (h : (a, b) ∈ combinations2 l) : a ≠ b := by
  induction l with
  | nil => simp [combinations2] at h
  | cons x xs ih =>
    rcases List.nodup_cons.mp hl with ⟨hx, hxs⟩
    simp only [combinations2, List.mem_append, List.mem_map, Prod.mk.injEq] at h
    rcases h with ⟨y, hy, hp1, hp2⟩ | h
    · subst hp1; subst hp2
      intro hab
      exact hx (hab ▸ hy)
    · exact ih hxs h

theorem combinations2_swap_not_mem {l : List α} (hl : l.Nodup) {a b : α}
    (h : (a, b) ∈ combinations2 l) : (b, a) ∉ combinations2 l := by
  induction l with
  | nil => simp [combinations2] at h
  | cons x xs ih =>
    rcases List.nodup_cons.mp hl with ⟨hx, hxs⟩
    simp only [combinations2, List.mem_append, List.mem_map, Prod.mk.injEq] at h ⊢
    rcases h with ⟨y, hy, hp1, hp2⟩ | h
    · subst hp1; subst hp2
      rintro (⟨z, hz, hz1, hz2⟩ | h)
      · exact hx (hz2 ▸ hz)
      · exact hx (combinations2_mem h).2
    · rintro (⟨z, hz, hz1, hz2⟩ | hmem)
      · exact hx (hz1 ▸ (combinations2_mem h).2)
      · exact ih hxs h hmem

theorem combinations2_nodup {l : List α} (hl : l.Nodup) : (combinations2 l).Nodup := by
  induction l with
  | nil => exact List.nodup_nil
  | cons x xs ih =>
    rcases List.nodup_cons.mp hl with ⟨hx, hxs⟩
    refine List.nodup_append.mpr ⟨?_, ih hxs, ?_⟩
    · exact hxs.map fun a b hab => by
        rw [Prod.mk.injEq] at hab
        exact hab.2
    · intro p hp hq
      rcases List.mem_map.mp hp with ⟨y, _, hpy⟩
      exact hx (hpy ▸ (combinations2_mem hq)).1

theorem combinations2_cover {l : List α} {a b : α} (ha : a ∈ l) (hb : b ∈ l)
    (hab : a ≠ b) : (a, b) ∈ combinations2 l ∨ (b, a) ∈ combinations2 l := by
  induction l with
  | nil => simp at ha
  | cons x xs ih =>
    simp only [combinations2, List.mem_append, List.mem_map, Prod.mk.injEq]
    rcases List.mem_cons.mp ha with rfl | ha2
    · rcases List.mem_cons.mp hb with rfl | hb2
      · exact absurd rfl hab
      · exact Or.inl (Or.inl ⟨b, hb2, rfl, rfl⟩)
    · rcases List.mem_cons.mp hb with rfl | hb2
      · exact Or.inr (Or.inl ⟨a, ha2, rfl, rfl⟩)
      · rcases ih ha2 hb2 with h | h
        · exact Or.inl (Or.inr h)
        · exact Or.inr (Or.inr h)

end Combinations2Lemmas

section RawQueriesLemmas

variable {α β : Type}

theorem length_flatMap_two (f g : α → β) (l : List α) :
    (l.flatMap fun p => [f p, g p]).length = 2 * l.length := by
  induction l with
  | nil => rfl
  | cons x xs ih =>
    simp only [List.flatMap_cons, List.length_append, List.length_cons, List.length_nil, ih]
    omega

theorem nodup_flatMap_both {f : α → α → β}
    (hinj : ∀ a b c d, f a b = f c d → a = c ∧ b = d)
    {l : List (α × α)} (hl : l.Nodup)
    (hne : ∀ p ∈ l, p.1 ≠ p.2)
    (hswap : ∀ p ∈ l, (p.2, p.1) ∉ l) :
    (l.flatMap fun p => [f p.1 p.2, f p.2 p.1]).Nodup := by
  induction l with
  | nil => exact List.nodup_nil
  | cons p l ih =>
    rcases List.nodup_cons.mp hl with ⟨hp, hl2⟩
    obtain ⟨a, b⟩ := p
    have hab : a ≠ b := hne (a, b) (List.mem_cons_self _ _)
    simp only [List.flatMap_cons]
    refine List.nodup_append.mpr ⟨?_, ?_, ?_⟩
    · refine List.nodup_cons.mpr ⟨?_, List.nodup_singleton _⟩
      simp only [List.mem_singleton]
      intro hfeq
      exact hab (hinj _ _ _ _ hfeq).1
    · exact ih hl2 (fun q hq => hne q (List.mem_cons_of_mem _ hq))
        (fun q hq hq2 => hswap q (List.mem_cons_of_mem _ hq) (List.mem_cons_of_mem _ hq2))
    · intro x hx hx2
      rcases List.mem_flatMap.mp hx2 with ⟨q, hq, hxq⟩
      obtain ⟨c, d⟩ := q
      simp only [List.mem_cons, List.mem_singleton, List.not_mem_nil, or_false] at hx hxq
      rcases hx with rfl | rfl
      · rcases hxq with hfeq | hfeq
        · obtain ⟨rfl, rfl⟩ := hinj _ _ _ _ hfeq
          exact hp hq
        · obtain ⟨rfl, rfl⟩ := hinj _ _ _ _ hfeq
          exact hswap (a, b) (List.mem_cons_self _ _) (List.mem_cons_of_mem _ hq)
      · rcases hxq with hfeq | hfeq
        · obtain ⟨rfl, rfl⟩ := hinj _ _ _ _ hfeq
          exact hswap (a, b) (List.mem_cons_self _ _) (List.mem_cons_of_mem _ hq)
        · obtain ⟨rfl, rfl⟩ := hinj _ _ _ _ hfeq
          exact hp hq

theorem pairJoin_inj (a b c d : Char) (h : [a, '_', b] = [c, '_', d]) :
    a = c ∧ b = d := by
  simpa using h

theorem rawQueries_length (symbols : List Char) :
    (rawQueries symbols).length
      = 2 * symbols.length + symbols.length * (symbols.length - 1) := by
  unfold rawQueries
  rw [List.length_append, List.length_append, List.length_map, List.length_map,
    length_flatMap_two (fun p : Char × Char => [p.1, '_', p.2])
      (fun p : Char × Char => [p.2, '_', p.1]),
    ← combinations2_length]
  ring

theorem rawQueries_nodup {symbols : List Char} (h : symbols.Nodup) :
    (rawQueries symbols).Nodup := by
  unfold rawQueries
  have hflat : ((combinations2 symbols).flatMap
      fun p => [[p.1, '_', p.2], [p.2, '_', p.1]]).Nodup := by
    refine nodup_flatMap_both pairJoin_inj (combinations2_nodup h) ?_ ?_
    · rintro ⟨a, b⟩ hp
      exact combinations2_ne h hp
    · rintro ⟨a, b⟩ hp
      exact combinations2_swap_not_mem h hp
  have hflatSh : ∀ q ∈ (combinations2 symbols).flatMap
      (fun p => [[p.1, '_', p.2], [p.2, '_', p.1]]),
      ∃ a b : Char, a ≠ b ∧ q = [a, '_', b] := by
    intro q hq
    rcases List.mem_flatMap.mp hq with ⟨⟨a, b⟩, hp, hqp⟩
    have hab : a ≠ b := combinations2_ne h hp
    simp only [List.mem_cons, List.mem_singleton, List.not_mem_nil, or_false] at hqp
    rcases hqp with rfl | rfl
    · exact ⟨a, b, hab, rfl⟩
    · exact ⟨b, a, hab.symm, rfl⟩
  rw [List.append_assoc]
  refine List.nodup_append.mpr ⟨?_, List.nodup_append.mpr ⟨?_, hflat, ?_⟩, ?_⟩
  · exact h.map fun a b hab => by simpa using hab
  · exact h.map fun a b hab => by simpa using hab
  · -- self-pairs are disjoint from the distinct-pair queries
    intro q hq hq2
    rcases List.mem_map.mp hq with ⟨s, _, rfl⟩
    rcases hflatSh _ hq2 with ⟨a, b, hab, hq3⟩
    simp only [List.cons.injEq] at hq3
    exact hab (hq3.1.symm.trans hq3.2.2.1)
  · -- singletons have length 1, every other query has length 3
    intro q hq hq2
    rcases List.mem_map.mp hq with ⟨s, _, rfl⟩
    rcases List.mem_append.mp hq2 with hq3 | hq3
    · rcases List.mem_map.mp hq3 with ⟨t, _, hq4⟩
      exact absurd (congrArg List.length hq4) (by simp)
    · rcases hflatSh _ hq3 with ⟨a, b, _, hq4⟩
      exact absurd (congrArg List.length hq4) (by simp)

theorem rawQueries_mem {symbols : List Char} (h : symbols.Nodup) (q : List Char) :
    q ∈ rawQueries symbols ↔
      ((∃ s ∈ symbols, q = [s]) ∨ (∃ s ∈ symbols, q = [s, '_', s]) ∨
        ∃ a ∈ symbols, ∃ b ∈ symbols, a ≠ b ∧ q = [a, '_', b]) := by
  unfold rawQueries
  simp only [List.mem_append, List.mem_map, List.mem_flatMap]
  constructor
  · rintro ((⟨s, hs, rfl⟩ | ⟨s, hs, rfl⟩) | ⟨⟨a, b⟩, hp, hq⟩)
    · exact Or.inl ⟨s, hs, rfl⟩
    · exact Or.inr (Or.inl ⟨s, hs, rfl⟩)
    · have hab := combinations2_ne h hp
      have hmem := combinations2_mem hp
      simp only [List.mem_cons, List.mem_singleton, List.not_mem_nil, or_false] at hq
      rcases hq with rfl | rfl
      · exact Or.inr (Or.inr ⟨a, hmem.1, b, hmem.2, hab, rfl⟩)
      · exact Or.inr (Or.inr ⟨b, hmem.2, a, hmem.1, hab.symm, rfl⟩)
  · rintro (⟨s, hs, rfl⟩ | ⟨s, hs, rfl⟩ | ⟨a, ha, b, hb, hab, rfl⟩)
    · exact Or.inl (Or.inl ⟨s, hs, rfl⟩)
    · exact Or.inl (Or.inr ⟨s, hs, rfl⟩)
    · rcases combinations2_cover ha hb hab with hp | hp
      · exact Or.inr ⟨(a, b), hp, by simp⟩
      · exact Or.inr ⟨(b, a), hp, by simp⟩

end RawQueriesLemmas

/-- C1: for every collection of `N` distinct single-character symbols,
`emoji_kitchen_build_queries` returns exactly `2N + N(N-1)` query strings — the
`N` singletons, the `N` self-pairs, and both orderings of every unordered pair
of distinct symbols joined by `'_'` — containing no duplicate entries, sorted
lexicographically. -/
theorem C1_query_generator (symbols : List Char) (hnd : symbols.Nodup) :
    (emoji_kitchen_build_queries symbols).length
        = 2 * symbols.length + symbols.length * (symbols.length - 1)
    ∧ (emoji_kitchen_build_queries symbols).Nodup
    ∧ List.Sorted (· ≤ ·) (emoji_kitchen_build_queries symbols)
    ∧ ∀ q : List Char, q ∈ emoji_kitchen_build_queries symbols ↔
        ((∃ s ∈ symbols, q = [s]) ∨ (∃ s ∈ symbols, q = [s, '_', s]) ∨
          ∃ a ∈ symbols, ∃ b ∈ symbols, a ≠ b ∧ q = [a, '_', b]) := by
  have hperm : List.Perm (emoji_kitchen_build_queries symbols) (rawQueries symbols) :=
    List.perm_insertionSort (· ≤ ·) (rawQueries symbols)
  exact ⟨hperm.length_eq.trans (rawQueries_length symbols),
    hperm.nodup_iff.mpr (rawQueries_nodup hnd),
    List.sorted_insertionSort (· ≤ ·) (rawQueries symbols),
    fun q => hperm.mem_iff.trans (rawQueries_mem hnd q)⟩

/-- Witness for C1 at the concrete symbol set `{a, b}`. -/
theorem C1_query_generator_witness :
    (emoji_kitchen_build_queries ['a', 'b']).length = 6
    ∧ (emoji_kitchen_build_queries ['a', 'b']).Nodup
    ∧ List.Sorted (· ≤ ·) (emoji_kitchen_build_queries ['a', 'b']) := by
  have h := C1_query_generator ['a', 'b'] (by decide)
  exact ⟨h.1.trans (by decide), h.2.1, h.2.2.1⟩

section SetLemmas

variable {α : Type} [DecidableEq α]

theorem setInsert_mem {l : List α} {a b : α} : a ∈ setInsert l b ↔ a ∈ l ∨ a = b := by
  unfold setInsert
  split
  · rename_i hb
    constructor
    · exact Or.inl
    · rintro (h2 | rfl)
      · exact h2
      · exact hb
  · simp [List.mem_append]

theorem setInsert_nodup {l : List α} (h : l.Nodup) (b : α) : (setInsert l b).Nodup := by
  unfold setInsert
  split
  · exact h
  · rename_i hb
    refine List.nodup_append.mpr ⟨h, List.nodup_singleton _, ?_⟩
    intro x hx hx2
    rw [List.mem_singleton] at hx2
    exact hb (hx2 ▸ hx)

theorem foldl_setInsert_mem (l : List α) (acc : List α) (a : α) :
    a ∈ l.foldl setInsert acc ↔ a ∈ acc ∨ a ∈ l := by
  induction l generalizing acc with
  | nil => simp
  | cons x xs ih =>
    rw [List.foldl_cons, ih, setInsert_mem, List.mem_cons]
    tauto

theorem foldl_setInsert_nodup (l : List α) (acc : List α) (h : acc.Nodup) :
    (l.foldl setInsert acc).Nodup := by
  induction l generalizing acc with
  | nil => exact h
  | cons x xs ih => exact ih _ (setInsert_nodup h x)

theorem setOfList_mem (l : List α) (a : α) : a ∈ setOfList l ↔ a ∈ l := by
  unfold setOfList
  rw [foldl_setInsert_mem]
  simp

theorem setOfList_nodup (l : List α) : (setOfList l).Nodup :=
  foldl_setInsert_nodup l [] List.nodup_nil

end SetLemmas

theorem db_write_sticker_stickers (db : Db) (st : EmojiKitchenSticker) :
    (db_write_sticker db st).stickers
      = db.stickers ++ [(st.id, st.symbols, st.url, st.created_time)] := by
  cases hemp : st.symbols.isEmpty <;> simp [db_write_sticker, hemp]

/-- C2: writing a sticker whose symbol set is exactly `A` inserts exactly one
`sticker_lookup` row, namely `(A, A, id)`; writing one whose symbol set is
exactly the two distinct symbols `A, B` inserts exactly one row, either
`(A, B, id)` or `(B, A, id)` depending on the set's iteration order. -/
theorem C2_lookup_row_per_sticker (db : Db) (st : EmojiKitchenSticker) (A B : Char)
    (_hAB : A ≠ B) :
    (st.symbols = [A] →
      (db_write_sticker db st).sticker_lookup = db.sticker_lookup ++ [(A, A, st.id)])
    ∧ (st.symbols = [A, B] ∨ st.symbols = [B, A] →
      (db_write_sticker db st).sticker_lookup = db.sticker_lookup ++ [(A, B, st.id)]
      ∨ (db_write_sticker db st).sticker_lookup = db.sticker_lookup ++ [(B, A, st.id)]) := by
  constructor
  · intro h
    simp [db_write_sticker, h, combinations2]
  · rintro (h | h)
    · left
      simp [db_write_sticker, h, combinations2]
    · right
      simp [db_write_sticker, h, combinations2]

/-- Witness for C2 at two concrete stickers with symbol sets `{x}` and `{x, y}`. -/
theorem C2_lookup_row_per_sticker_witness :
    (db_write_sticker Db.empty ⟨['i'], ['x'], ['u'], 1⟩).sticker_lookup
        = Db.empty.sticker_lookup ++ [('x', 'x', ['i'])]
    ∧ ((db_write_sticker Db.empty ⟨['j'], ['x', 'y'], ['u'], 1⟩).sticker_lookup
          = Db.empty.sticker_lookup ++ [('x', 'y', ['j'])]
      ∨ (db_write_sticker Db.empty ⟨['j'], ['x', 'y'], ['u'], 1⟩).sticker_lookup
          = Db.empty.sticker_lookup ++ [('y', 'x', ['j'])]) := by
  have h1 := (C2_lookup_row_per_sticker Db.empty ⟨['i'], ['x'], ['u'], 1⟩ 'x' 'y'
    (by decide)).1 rfl
  have h2 := (C2_lookup_row_per_sticker Db.empty ⟨['j'], ['x', 'y'], ['u'], 1⟩ 'x' 'y'
    (by decide)).2 (Or.inl rfl)
  exact ⟨h1, h2⟩

theorem createIfNotExists_self_mem (names : List String) (n : String) :
    n ∈ createIfNotExists names n := by
  unfold createIfNotExists
  split
  · assumption
  · simp

theorem createIfNotExists_mem_mono {names : List String} {m : String} (h : m ∈ names)
    (n : String) : m ∈ createIfNotExists names n := by
  unfold createIfNotExists
  split
  · exact h
  · exact List.mem_append_left _ h

theorem createIfNotExists_of_mem {names : List String} {n : String} (h : n ∈ names) :
    createIfNotExists names n = names :=
  if_pos h

/-- C7: schema initialization is idempotent — a second `init_db_schema` on the
same store raises no error and changes nothing, and a fresh store ends with
exactly the two tables `stickers` and `sticker_lookup` and their two indexes,
with no duplicates. -/
theorem C7_schema_idempotent :
    (∀ db : Db, init_db_schema (init_db_schema db) = init_db_schema db)
    ∧ (init_db_schema Db.empty).tables = ["stickers", "sticker_lookup"]
    ∧ (init_db_schema Db.empty).indexes = ["idx_stickers", "idx_sticker_lookup"]
    ∧ (init_db_schema Db.empty).tables.Nodup
    ∧ (init_db_schema Db.empty).indexes.Nodup := by
  refine ⟨?_, by decide, by decide, by decide, by decide⟩
  intro db
  obtain ⟨t, i, s, l⟩ := db
  simp only [init_db_schema]
  rw [createIfNotExists_of_mem (createIfNotExists_mem_mono
        (createIfNotExists_self_mem t "stickers") "sticker_lookup"),
    createIfNotExists_of_mem (createIfNotExists_self_mem
        (createIfNotExists t "stickers") "sticker_lookup"),
    createIfNotExists_of_mem (createIfNotExists_mem_mono
        (createIfNotExists_self_mem i "idx_stickers") "idx_sticker_lookup"),
    createIfNotExists_of_mem (createIfNotExists_self_mem
        (createIfNotExists i "idx_stickers") "idx_sticker_lookup")]

/-- C10: writing a sticker with an empty symbol set raises no error — it
appends exactly one `stickers` row, whose serialized symbols string is empty,
and returns early without touching `sticker_lookup`. -/
theorem C10_empty_symbol_set (db : Db) (st : EmojiKitchenSticker) (h : st.symbols = []) :
    (db_write_sticker db st).stickers
        = db.stickers ++ [(st.id, ([] : List Char), st.url, st.created_time)]
    ∧ (db_write_sticker db st).sticker_lookup = db.sticker_lookup := by
  constructor
  · rw [db_write_sticker_stickers, h]
  · simp [db_write_sticker, h]

theorem db_write_sticker_lookup_multi (db : Db) (st : EmojiKitchenSticker)
    (h2 : 2 ≤ st.symbols.length) :
    (db_write_sticker db st).sticker_lookup
      = db.sticker_lookup ++ (combinations2 st.symbols).map fun p => (p.1, p.2, st.id) := by
  have hemp : st.symbols.isEmpty = false := by
    cases hsym : st.symbols
    · rw [hsym] at h2
      simp at h2
    · rfl
  have hlen : (st.symbols.length == 1) = false := by
    simp only [beq_eq_false_iff_ne, ne_eq]
    omega
  simp [db_write_sticker, hemp, hlen]

/-- C9: for a sticker whose symbol set has `k ≥ 2` elements, `db_write_sticker`
appends exactly `k(k-1)/2` rows to `sticker_lookup` — one row per
`combinations` pair of the set in iteration order, covering every unordered
pair of distinct symbols in one of its two orders — so a sticker with three or
more symbols (which `emoji_kitchen_query` can produce, whenever a result's tags
have three or more distinct first characters) yields more than one lookup row. -/
theorem C9_pairwise_lookup_rows (db : Db) (st : EmojiKitchenSticker) (k : Nat)
    (hnd : st.symbols.Nodup) (hk : st.symbols.length = k) (h2 : 2 ≤ k) :
    (db_write_sticker db st).sticker_lookup
        = db.sticker_lookup ++ (combinations2 st.symbols).map (fun p => (p.1, p.2, st.id))
    ∧ (db_write_sticker db st).sticker_lookup.length
        = db.sticker_lookup.length + k * (k - 1) / 2
    ∧ (3 ≤ k → db.sticker_lookup.length + 1 < (db_write_sticker db st).sticker_lookup.length)
    ∧ ((combinations2 st.symbols).map (fun p => (p.1, p.2, st.id))).Nodup
    ∧ (∀ a b : Char, a ∈ st.symbols → b ∈ st.symbols → a ≠ b →
        (a, b, st.id) ∈ (db_write_sticker db st).sticker_lookup
          ∨ (b, a, st.id) ∈ (db_write_sticker db st).sticker_lookup)
    ∧ ∃ entry : ResultEntry, ∃ st3 : EmojiKitchenSticker,
        parseResult entry = .ok st3 ∧ 3 ≤ st3.symbols.length := by
  have hlookup := db_write_sticker_lookup_multi db st (hk ▸ h2)
  have hcount : 2 * (combinations2 st.symbols).length = k * (k - 1) :=
    (combinations2_length st.symbols).trans (by rw [hk])
  refine ⟨hlookup, ?_, ?_, ?_, ?_, ?_⟩
  · rw [hlookup, List.length_append, List.length_map]
    omega
  · intro h3
    have hmul : 3 * 2 ≤ k * (k - 1) := Nat.mul_le_mul h3 (by omega)
    rw [hlookup, List.length_append, List.length_map]
    omega
  · refine (combinations2_nodup hnd).map ?_
    intro p q hpq
    simp only [Prod.mk.injEq] at hpq
    exact Prod.ext hpq.1 hpq.2.1
  · intro a b ha hb hab
    rw [hlookup]
    rcases combinations2_cover ha hb hab with hp | hp
    · exact Or.inl (List.mem_append_right _
        (List.mem_map.mpr ⟨(a, b), hp, rfl⟩))
    · exact Or.inr (List.mem_append_right _
        (List.mem_map.mpr ⟨(b, a), hp, rfl⟩))
  · exact ⟨⟨some (.str ['i']), some (.str ['u']), some (.int 1),
      some (.list [.str ['x'], .str ['y'], .str ['z']])⟩,
      ⟨['i'], ['x', 'y', 'z'], ['u'], 1⟩, rfl, by decide⟩

/-- Witness for C9 at a concrete three-symbol sticker. -/
theorem C9_pairwise_lookup_rows_witness :
    (db_write_sticker Db.empty ⟨['i'], ['x', 'y', 'z'], ['u'], 1⟩).sticker_lookup
        = Db.empty.sticker_lookup
          ++ (combinations2 ['x', 'y', 'z']).map (fun p => (p.1, p.2, ['i']))
    ∧ (db_write_sticker Db.empty ⟨['i'], ['x', 'y', 'z'], ['u'], 1⟩).sticker_lookup.length
        = Db.empty.sticker_lookup.length + 3 * (3 - 1) / 2 := by
  have h := C9_pairwise_lookup_rows Db.empty ⟨['i'], ['x', 'y', 'z'], ['u'], 1⟩ 3
    (by decide) rfl (by decide)
  exact ⟨h.1, h.2.1⟩

/-- C6: sticker equality and hashing are decided by `id` alone — two stickers
with the same `id` are equal (and feeding both into the aggregation set before
writing produces exactly one `stickers` row), while two stickers identical in
all content fields but with different `id`s are distinct and both persisted. -/
theorem C6_identity_by_id (a b : EmojiKitchenSticker) :
    (a.id = b.id →
      stickerEq a b = true
      ∧ stickerHash a = stickerHash b
      ∧ ((stickerUpdate [] [a, b]).foldl db_write_sticker
          (init_db_schema Db.empty)).stickers.length = 1)
    ∧ (a.id ≠ b.id → a.symbols = b.symbols → a.url = b.url → a.created_time = b.created_time →
      stickerEq a b = false
      ∧ ((stickerUpdate [] [a, b]).foldl db_write_sticker
          (init_db_schema Db.empty)).stickers.length = 2) := by
  constructor
  · intro h
    have he : stickerEq a b = true := by simp [stickerEq, h]
    have hset : stickerUpdate [] [a, b] = [a] := by
      simp [stickerUpdate, stickerInsert, he]
    rw [hset]
    refine ⟨he, by simp [stickerHash, h], ?_⟩
    simp only [List.foldl_cons, List.foldl_nil, db_write_sticker_stickers,
      List.length_append]
    rfl
  · intro h _ _ _
    have he : stickerEq a b = false := by
      simp only [stickerEq, beq_eq_false_iff_ne, ne_eq]
      exact h
    have hset : stickerUpdate [] [a, b] = [a, b] := by
      simp [stickerUpdate, stickerInsert, he]
    rw [hset]
    refine ⟨he, ?_⟩
    simp only [List.foldl_cons, List.foldl_nil, db_write_sticker_stickers,
      List.length_append]
    rfl

/-- Witness for C6 at two concrete sticker pairs: same id with different
content, and different ids with identical content. -/
theorem C6_identity_by_id_witness :
    (stickerEq ⟨['i'], ['x'], ['u'], 1⟩ ⟨['i'], ['y'], ['v'], 2⟩ = true
      ∧ stickerHash ⟨['i'], ['x'], ['u'], 1⟩ = stickerHash ⟨['i'], ['y'], ['v'], 2⟩
      ∧ ((stickerUpdate [] [⟨['i'], ['x'], ['u'], 1⟩, ⟨['i'], ['y'], ['v'], 2⟩]).foldl
          db_write_sticker (init_db_schema Db.empty)).stickers.length = 1)
    ∧ (stickerEq ⟨['i'], ['x'], ['u'], 1⟩ ⟨['j'], ['x'], ['u'], 1⟩ = false
      ∧ ((stickerUpdate [] [⟨['i'], ['x'], ['u'], 1⟩, ⟨['j'], ['x'], ['u'], 1⟩]).foldl
          db_write_sticker (init_db_schema Db.empty)).stickers.length = 2) := by
  have h1 := (C6_identity_by_id ⟨['i'], ['x'], ['u'], 1⟩ ⟨['i'], ['y'], ['v'], 2⟩).1 rfl
  have h2 := (C6_identity_by_id ⟨['i'], ['x'], ['u'], 1⟩ ⟨['j'], ['x'], ['u'], 1⟩).2
    (by decide) rfl rfl rfl
  exact ⟨h1, h2⟩

/-- Witness for C10 at a concrete sticker with no symbols. -/
theorem C10_empty_symbol_set_witness :
    (db_write_sticker Db.empty ⟨['i'], [], ['u'], 0⟩).stickers
        = Db.empty.stickers ++ [(['i'], ([] : List Char), ['u'], (0 : Int))]
    ∧ (db_write_sticker Db.empty ⟨['i'], [], ['u'], 0⟩).sticker_lookup
        = Db.empty.sticker_lookup :=
  C10_empty_symbol_set Db.empty ⟨['i'], [], ['u'], 0⟩ rfl

/-- A response carrying a tolerated 404 error object and, pathologically, a
result entry as well. -/
def notFoundWithResult : ApiResponse :=
  ⟨some ⟨some 404, false⟩,
    [⟨some (.str ['i']), some (.str ['u']), some (.int 1), some (.list [.str ['x']])⟩]⟩

/-- C3 counterexample: a response whose error object has code 404 is tolerated,
but `emoji_kitchen_query` still walks the `results` list — on this response it
yields one sticker, not zero, refuting the universally quantified "in which
case it yields zero Stickers". -/
theorem C3_counterexample :
    emoji_kitchen_query notFoundWithResult = .ok [⟨['i'], ['x'], ['u'], 1⟩]
    ∧ (emoji_kitchen_query notFoundWithResult).isOk = true
    ∧ emoji_kitchen_query notFoundWithResult ≠ .ok [] := by
  refine ⟨rfl, rfl, ?_⟩
  intro hcontra
  have hval : ([⟨['i'], ['x'], ['u'], 1⟩] : List EmojiKitchenSticker) = [] :=
    Except.ok.inj ((show emoji_kitchen_query notFoundWithResult
      = .ok [⟨['i'], ['x'], ['u'], 1⟩] from rfl).symm.trans hcontra)
  simp at hval

/-- C3 amended: the top-level error check tolerates an error value only when it
is falsy or its code equals 404.  A truthy error object whose code differs
from 404 is a fatal assertion failure with nothing yielded; a tolerated error
yields zero stickers whenever the results list is empty (as in a genuine
not-found response), with no exception. -/
theorem C3_not_found_tolerance (data : ApiResponse) :
    (∀ e, data.error = some e → e.pytruthy = true → e.code ≠ some 404 →
      emoji_kitchen_query data = .error .assertionError)
    ∧ ((errorTruthy data.error = false ∨ errorCode data.error = some 404) →
      data.results = [] → emoji_kitchen_query data = .ok []) := by
  constructor
  · intro e he htr hcode
    simp [emoji_kitchen_query, errorTruthy, errorCode, he, htr, hcode]
  · rintro (h | h) hres <;> rcases hd : data.error with _ | e <;>
      simp_all [emoji_kitchen_query, errorTruthy, errorCode, parseResults]

/-- Witness for the amended C3 at two concrete responses: a truthy error
object with code 500, and a pure not-found response. -/
theorem C3_not_found_tolerance_witness :
    emoji_kitchen_query ⟨some ⟨some 500, false⟩, []⟩ = .error .assertionError
    ∧ emoji_kitchen_query ⟨some ⟨some 404, false⟩, []⟩ = .ok [] := by
  have h1 := (C3_not_found_tolerance ⟨some ⟨some 500, false⟩, []⟩).1
    ⟨some 500, false⟩ rfl rfl (by decide)
  have h2 := (C3_not_found_tolerance ⟨some ⟨some 404, false⟩, []⟩).2 (Or.inr rfl) rfl
  exact ⟨h1, h2⟩

theorem scanQueries_error {respond : List Char → ApiResponse} :
    ∀ queries : List (List Char),
      (∃ q ∈ queries, ∃ e, emoji_kitchen_query (respond q) = .error e) →
      ∀ acc, ∃ e2, scanQueries respond queries acc = .error e2 := by
  intro queries
  induction queries with
  | nil =>
    rintro ⟨q, hq, _⟩
    simp at hq
  | cons q rest ih =>
    rintro ⟨q0, hq0, e, he⟩ acc
    rcases List.mem_cons.mp hq0 with rfl | hmem
    · exact ⟨e, by simp [scanQueries, he]⟩
    · cases hval : emoji_kitchen_query (respond q) with
      | error e2 => exact ⟨e2, by simp [scanQueries, hval]⟩
      | ok fetched =>
        rcases ih ⟨q0, hmem, e, he⟩ (stickerUpdate acc fetched) with ⟨e2, he2⟩
        exact ⟨e2, by simp [scanQueries, hval, he2]⟩

/-- C5: in a fresh run, if fetching any of the built queries fails with a
fatal error, the whole run fails — `main_run` returns that failure and never
produces a database, so zero rows are written to either table; the store is
opened, initialized and written only after the in-memory scan over all
queries has completed. -/
theorem C5_no_rows_on_fetch_failure (category : Char → Option String)
    (rows : List (List (List Char))) (respond : List Char → ApiResponse)
    (supported : List Char)
    (h1 : read_emoji_csv category rows = .ok supported)
    (h2 : ∃ q ∈ emoji_kitchen_build_queries supported,
      ∃ e, emoji_kitchen_query (respond q) = .error e) :
    (∃ e, main_run category rows respond = .error e)
    ∧ ∀ db : Db, main_run category rows respond ≠ .ok db := by
  rcases scanQueries_error _ h2 [] with ⟨e2, he2⟩
  have hmain : main_run category rows respond = .error e2 := by
    simp [main_run, h1, he2]
  refine ⟨⟨e2, hmain⟩, fun db h => ?_⟩
  rw [hmain] at h
  cases h

/-- The category lookup used by concrete pipeline witnesses: only `a`
resolves, to the allowed category `Objects`. -/
def categoryOnlyA : Char → Option String :=
  fun c => if c = 'a' then some "Objects" else none

/-- A search collaborator that always reports a truthy error object with code
500. -/
def respondServerError : List Char → ApiResponse :=
  fun _ => ⟨some ⟨some 500, false⟩, []⟩

/-- Witness for C5: a concrete fresh run whose first fetch fails fatally
produces no database value. -/
theorem C5_no_rows_on_fetch_failure_witness :
    (main_run categoryOnlyA [[['a']]] respondServerError).isOk = false := by
  have h := C5_no_rows_on_fetch_failure categoryOnlyA [[['a']]] respondServerError ['a']
    rfl ⟨['a'], by decide, .assertionError, rfl⟩
  rcases h.1 with ⟨e, he⟩
  rw [he]
  rfl

/-- C8 counterexample: a csv row whose first field is the empty string makes
`line[0][0]` raise an `IndexError`, so `read_emoji_csv` does fail on some
input rows. -/
theorem C8_counterexample :
    read_emoji_csv (fun _ => none) [[[]]] = .error .indexError := rfl

theorem collectSymbols_ok :
    ∀ rows : List (List (List Char)),
      (∀ line ∈ rows, ∃ c rest fs, line = (c :: rest) :: fs) →
      ∀ acc, ∃ l, collectSymbols rows acc = .ok l
        ∧ (acc.Nodup → l.Nodup)
        ∧ ∀ x, x ∈ l ↔ (x ∈ acc ∨ ∃ line ∈ rows, ∃ rest fs, line = (x :: rest) :: fs) := by
  intro rows
  induction rows with
  | nil =>
    intro _ acc
    exact ⟨acc, rfl, fun hnd => hnd, fun x => by simp⟩
  | cons line rest ih =>
    intro h acc
    rcases h line (List.mem_cons_self _ _) with ⟨c, crest, fs, rfl⟩
    rcases ih (fun l2 hl2 => h l2 (List.mem_cons_of_mem _ hl2)) (setInsert acc c) with
      ⟨l, hok, hnd, hmem⟩
    refine ⟨l, by simpa [collectSymbols] using hok, fun ha => hnd (setInsert_nodup ha c), ?_⟩
    intro x
    rw [hmem x, setInsert_mem]
    constructor
    · rintro ((hx | rfl) | hx)
      · exact Or.inl hx
      · exact Or.inr ⟨_, List.mem_cons_self _ _, crest, fs, rfl⟩
      · rcases hx with ⟨line2, hl2, r2, f2, rfl⟩
        exact Or.inr ⟨_, List.mem_cons_of_mem _ hl2, r2, f2, rfl⟩
    · rintro (hx | ⟨line2, hl2, r2, f2, hline2⟩)
      · exact Or.inl (Or.inl hx)
      · rcases List.mem_cons.mp hl2 with rfl | hl3
        · simp only [List.cons.injEq] at hline2
          exact Or.inl (Or.inr hline2.1.1.symm)
        · exact Or.inr ⟨line2, hl3, r2, f2, hline2⟩

/-- C8 amended: on csv rows that each carry a non-empty first field,
`read_emoji_csv` succeeds and returns the distinct set of first characters of
each row's first field whose resolved category lies in the allow-list,
silently dropping symbols with no resolvable category; but a row with an
empty (or missing) first field raises an `IndexError`, so the filter is not
total on arbitrary rows. -/
theorem C8_emoji_filter (category : Char → Option String)
    (rows : List (List (List Char)))
    (h : ∀ line ∈ rows, ∃ c rest fs, line = (c :: rest) :: fs) :
    ∃ l, read_emoji_csv category rows = .ok l
      ∧ l.Nodup
      ∧ ∀ c : Char, c ∈ l ↔
          ((∃ line ∈ rows, ∃ rest fs, line = (c :: rest) :: fs)
            ∧ ∃ cat, category c = some cat ∧ cat ∈ ALLOWED_CATEGORIES) := by
  rcases collectSymbols_ok rows h [] with ⟨l0, hok, hnd, hmem⟩
  refine ⟨l0.filter fun s =>
      match category s with
      | some cat => decide (cat ∈ ALLOWED_CATEGORIES)
      | none => false,
    by simp [read_emoji_csv, hok], (hnd List.nodup_nil).filter _, ?_⟩
  intro c
  rw [List.mem_filter, hmem c]
  simp only [List.not_mem_nil, false_or]
  constructor
  · rintro ⟨hmem2, hp⟩
    refine ⟨hmem2, ?_⟩
    cases hcat : category c with
    | none =>
      rw [hcat] at hp
      simp at hp
    | some cat =>
      rw [hcat] at hp
      simp only [decide_eq_true_eq] at hp
      exact ⟨cat, rfl, hp⟩
  · rintro ⟨hmem2, cat, hcat, hallowed⟩
    exact ⟨hmem2, by simp [hcat, hallowed]⟩

/-- Witness for the amended C8 at concrete rows: `a` resolves to an allowed
category and is kept, `b` has no category and is dropped. -/
theorem C8_emoji_filter_witness :
    read_emoji_csv categoryOnlyA [[['a']], [['b']]] = .ok ['a']
    ∧ (['a'] : List Char).Nodup := by
  have h := C8_emoji_filter categoryOnlyA [[['a']], [['b']]] ?hrows
  case hrows =>
    intro line hline
    rcases List.mem_cons.mp hline with rfl | hline2
    · exact ⟨'a', [], [], rfl⟩
    · rcases List.mem_cons.mp hline2 with rfl | hline3
      · exact ⟨'b', [], [], rfl⟩
      · simp at hline3
  rcases h with ⟨l, hok, hnd, _⟩
  have heval : read_emoji_csv categoryOnlyA [[['a']], [['b']]] = .ok ['a'] := rfl
  have hl : l = ['a'] := Except.ok.inj (hok.symm.trans heval)
  exact ⟨heval, hl ▸ hnd⟩

theorem isStr_iff (t : JValue) : t.isStr = true ↔ ∃ s, t = .str s := by
  cases t <;> simp [JValue.isStr]

theorem strGuard_iff (v : Option JValue) :
    ((v.getD .null).pytruthy && (v.getD .null).isStr) = true
      ↔ ∃ s, v = some (.str s) ∧ s ≠ [] := by
  cases v with
  | none => simp [JValue.pytruthy, JValue.isStr]
  | some j => cases j <;> simp [JValue.pytruthy, JValue.isStr]

theorem intGuard_iff (v : Option JValue) :
    ((v.getD .null).pytruthy && (v.getD .null).isInt) = true
      ↔ ((∃ n : Int, v = some (.int n) ∧ n ≠ 0) ∨ v = some (.bool true)) := by
  cases v with
  | none => simp [JValue.pytruthy, JValue.isInt]
  | some j => cases j <;> simp [JValue.pytruthy, JValue.isInt]

theorem tagsGuard_iff (v : Option JValue) :
    ((v.getD .null).pytruthy && (v.getD .null).isList
        && (v.getD .null).asList.all JValue.isStr) = true
      ↔ ∃ ts, v = some (.list ts) ∧ ts ≠ [] ∧ ∀ t ∈ ts, ∃ s, t = .str s := by
  cases v with
  | none => simp [JValue.pytruthy, JValue.isList, JValue.asList]
  | some j =>
    cases j <;>
      simp [JValue.pytruthy, JValue.isList, JValue.asList, List.all_eq_true, isStr_iff]

theorem firstChars_ok_iff (ts : List JValue) :
    (∃ cs, firstChars ts = .ok cs) ↔ ∀ t ∈ ts, t.asStr ≠ [] := by
  induction ts with
  | nil => simp [firstChars]
  | cons t rest ih =>
    constructor
    · rintro ⟨cs, hcs⟩
      unfold firstChars at hcs
      cases ht : t.asStr with
      | nil =>
        rw [ht] at hcs
        cases hcs
      | cons c s =>
        rw [ht] at hcs
        cases hrest : firstChars rest with
        | error e =>
          rw [hrest] at hcs
          cases hcs
        | ok cs2 =>
          intro t2 ht2
          rcases List.mem_cons.mp ht2 with rfl | hmem
          · simp [ht]
          · exact ih.mp ⟨cs2, hrest⟩ t2 hmem
    · intro h
      cases ht : t.asStr with
      | nil => exact absurd ht (h t (List.mem_cons_self _ _))
      | cons c s =>
        rcases ih.mpr (fun t2 h2 => h t2 (List.mem_cons_of_mem _ h2)) with ⟨cs, hcs⟩
        exact ⟨c :: cs, by simp [firstChars, ht, hcs]⟩

theorem firstChars_error_val {ts : List JValue} {e : PyError}
    (h : firstChars ts = .error e) : e = .indexError := by
  induction ts with
  | nil => cases h
  | cons t rest ih =>
    unfold firstChars at h
    cases ht : t.asStr with
    | nil =>
      rw [ht] at h
      cases h
      rfl
    | cons c s =>
      rw [ht] at h
      cases hrest : firstChars rest with
      | error e2 =>
        rw [hrest] at h
        cases h
        exact ih hrest
      | ok cs =>
        rw [hrest] at h
        cases h

theorem firstChars_mem :
    ∀ {ts : List JValue} {cs : List Char}, firstChars ts = .ok cs →
      ∀ c, c ∈ cs ↔ ∃ t ∈ ts, ∃ s, t.asStr = c :: s := by
  intro ts
  induction ts with
  | nil =>
    intro cs h c
    cases h
    simp
  | cons t rest ih =>
    intro cs h c
    unfold firstChars at h
    cases ht : t.asStr with
    | nil =>
      rw [ht] at h
      cases h
    | cons c0 s0 =>
      rw [ht] at h
      cases hrest : firstChars rest with
      | error e =>
        rw [hrest] at h
        cases h
      | ok cs2 =>
        rw [hrest] at h
        cases h
        simp only [List.mem_cons]
        constructor
        · rintro (rfl | hmem)
          · exact ⟨t, Or.inl rfl, s0, ht⟩
          · rcases (ih hrest c).mp hmem with ⟨t2, ht2, s, hs⟩
            exact ⟨t2, Or.inr ht2, s, hs⟩
        · rintro ⟨t2, rfl | hmem, s, hs⟩
          · rw [ht] at hs
            exact Or.inl (List.head_eq_of_cons_eq hs).symm
          · exact Or.inr ((ih hrest c).mpr ⟨t2, hmem, s, hs⟩)

theorem parseResult_of_guards (r : ResultEntry)
    (h1 : ((r.id.getD .null).pytruthy && (r.id.getD .null).isStr) = true)
    (h2 : ((r.url.getD .null).pytruthy && (r.url.getD .null).isStr) = true)
    (h3 : ((r.created.getD .null).pytruthy && (r.created.getD .null).isInt) = true)
    (h4 : ((r.tags.getD .null).pytruthy && (r.tags.getD .null).isList
        && (r.tags.getD .null).asList.all JValue.isStr) = true) :
    parseResult r = match firstChars (r.tags.getD .null).asList with
      | .error e => .error e
      | .ok cs => .ok ⟨(r.id.getD .null).asStr, setOfList cs,
          (r.url.getD .null).asStr, (r.created.getD .null).asInt⟩ := by
  simp [parseResult, h1, h2, h3, h4]

theorem parseResult_assert_of_fail (r : ResultEntry)
    (h : ((r.id.getD .null).pytruthy && (r.id.getD .null).isStr) = false
      ∨ ((r.url.getD .null).pytruthy && (r.url.getD .null).isStr) = false
      ∨ ((r.created.getD .null).pytruthy && (r.created.getD .null).isInt) = false
      ∨ ((r.tags.getD .null).pytruthy && (r.tags.getD .null).isList
          && (r.tags.getD .null).asList.all JValue.isStr) = false) :
    parseResult r = .error .assertionError := by
  unfold parseResult
  rcases h with h | h | h | h <;> simp [h]

/-- C4 corrected: the per-result `assert`s demand more than presence and type.
`parseResult` succeeds iff `id` and `url` are *non-empty* strings, `created`
is a *truthy* integer (non-zero, with Python's `bool` a subclass of `int`),
`tags` is a non-empty list of strings, and every tag is itself non-empty; a
result whose fields all pass the asserts but which contains an empty tag
string fails with an `IndexError` at `tag[0]`, not an assertion failure; on
success the sticker's symbols are exactly the set of first characters of the
tags. -/
theorem C4_strict_result_validation (r : ResultEntry) :
    ((∃ st, parseResult r = .ok st) ↔
      ((∃ s, r.id = some (.str s) ∧ s ≠ [])
        ∧ (∃ s, r.url = some (.str s) ∧ s ≠ [])
        ∧ ((∃ n : Int, r.created = some (.int n) ∧ n ≠ 0) ∨ r.created = some (.bool true))
        ∧ ∃ ts, r.tags = some (.list ts) ∧ ts ≠ []
            ∧ ∀ t ∈ ts, ∃ s, t = .str s ∧ s ≠ []))
    ∧ (parseResult r = .error .indexError ↔
      ((∃ s, r.id = some (.str s) ∧ s ≠ [])
        ∧ (∃ s, r.url = some (.str s) ∧ s ≠ [])
        ∧ ((∃ n : Int, r.created = some (.int n) ∧ n ≠ 0) ∨ r.created = some (.bool true))
        ∧ ∃ ts, r.tags = some (.list ts) ∧ ts ≠ []
            ∧ (∀ t ∈ ts, ∃ s, t = .str s) ∧ ∃ t ∈ ts, t = .str []))
    ∧ (∀ st, parseResult r = .ok st → ∀ ts, r.tags = some (.list ts) →
        st.symbols.Nodup
        ∧ ∀ c : Char, c ∈ st.symbols ↔ ∃ t ∈ ts, ∃ s, t = .str (c :: s)) := by
  by_cases h1 : ((r.id.getD .null).pytruthy && (r.id.getD .null).isStr) = true
  case neg =>
    have hass : parseResult r = .error .assertionError :=
      parseResult_assert_of_fail r (Or.inl (Bool.eq_false_iff.mpr h1))
    exact ⟨iff_of_false (fun ⟨st, hst⟩ => by rw [hass] at hst; cases hst)
        (fun hsp => h1 ((strGuard_iff r.id).mpr hsp.1)),
      iff_of_false (by rw [hass]; simp)
        (fun hsp => h1 ((strGuard_iff r.id).mpr hsp.1)),
      fun st hst => by rw [hass] at hst; cases hst⟩
  by_cases h2 : ((r.url.getD .null).pytruthy && (r.url.getD .null).isStr) = true
  case neg =>
    have hass : parseResult r = .error .assertionError :=
      parseResult_assert_of_fail r (Or.inr (Or.inl (Bool.eq_false_iff.mpr h2)))
    exact ⟨iff_of_false (fun ⟨st, hst⟩ => by rw [hass] at hst; cases hst)
        (fun hsp => h2 ((strGuard_iff r.url).mpr hsp.2.1)),
      iff_of_false (by rw [hass]; simp)
        (fun hsp => h2 ((strGuard_iff r.url).mpr hsp.2.1)),
      fun st hst => by rw [hass] at hst; cases hst⟩
  by_cases h3 : ((r.created.getD .null).pytruthy && (r.created.getD .null).isInt) = true
  case neg =>
    have hass : parseResult r = .error .assertionError :=
      parseResult_assert_of_fail r (Or.inr (Or.inr (Or.inl (Bool.eq_false_iff.mpr h3))))
    exact ⟨iff_of_false (fun ⟨st, hst⟩ => by rw [hass] at hst; cases hst)
        (fun hsp => h3 ((intGuard_iff r.created).mpr hsp.2.2.1)),
      iff_of_false (by rw [hass]; simp)
        (fun hsp => h3 ((intGuard_iff r.created).mpr hsp.2.2.1)),
      fun st hst => by rw [hass] at hst; cases hst⟩
  by_cases h4 : ((r.tags.getD .null).pytruthy && (r.tags.getD .null).isList
      && (r.tags.getD .null).asList.all JValue.isStr) = true
  case neg =>
    have hass : parseResult r = .error .assertionError :=
      parseResult_assert_of_fail r (Or.inr (Or.inr (Or.inr (Bool.eq_false_iff.mpr h4))))
    exact ⟨iff_of_false (fun ⟨st, hst⟩ => by rw [hass] at hst; cases hst)
        (fun hsp => h4 ((tagsGuard_iff r.tags).mpr (hsp.2.2.2.imp fun ts hts =>
          ⟨hts.1, hts.2.1, fun t ht => (hts.2.2 t ht).imp fun s hs => hs.1⟩))),
      iff_of_false (by rw [hass]; simp)
        (fun hsp => h4 ((tagsGuard_iff r.tags).mpr (hsp.2.2.2.imp fun ts hts =>
          ⟨hts.1, hts.2.1, hts.2.2.1⟩))),
      fun st hst => by rw [hass] at hst; cases hst⟩
  have heq := parseResult_of_guards r h1 h2 h3 h4
  rcases (tagsGuard_iff r.tags).mp h4 with ⟨ts, hts, htsne, htstr⟩
  have hasList : (r.tags.getD .null).asList = ts := by rw [hts]; rfl
  rw [hasList] at heq
  have hspec1 := (strGuard_iff r.id).mp h1
  have hspec2 := (strGuard_iff r.url).mp h2
  have hspec3 := (intGuard_iff r.created).mp h3
  cases hfc : firstChars ts with
  | ok cs =>
    rw [hfc] at heq
    have hall : ∀ t ∈ ts, t.asStr ≠ [] := (firstChars_ok_iff ts).mp ⟨cs, hfc⟩
    refine ⟨?_, ?_, ?_⟩
    · refine iff_of_true ⟨_, heq⟩ ⟨hspec1, hspec2, hspec3, ts, hts, htsne, ?_⟩
      intro t ht
      rcases htstr t ht with ⟨s, rfl⟩
      exact ⟨s, rfl, fun hnil => hall _ ht (by simp [JValue.asStr, hnil])⟩
    · refine iff_of_false (by rw [heq]; simp) ?_
      rintro ⟨_, _, _, ts2, hts2, _, _, t0, ht0, ht0e⟩
      rw [hts] at hts2
      injection hts2 with hl
      injection hl with hl2
      subst hl2
      exact hall t0 ht0 (by rw [ht0e]; rfl)
    · intro st hst ts2 hts2
      rw [heq] at hst
      injection hst with hst2
      subst hst2
      rw [hts] at hts2
      injection hts2 with hl
      injection hl with hl2
      subst hl2
      refine ⟨setOfList_nodup cs, ?_⟩
      intro c
      rw [setOfList_mem, firstChars_mem hfc c]
      constructor
      · rintro ⟨t, ht, s, hs⟩
        rcases htstr t ht with ⟨s2, rfl⟩
        simp only [JValue.asStr] at hs
        exact ⟨.str s2, ht, s, by rw [hs]⟩
      · rintro ⟨t, ht, s, rfl⟩
        exact ⟨.str (c :: s), ht, s, rfl⟩
  | error e =>
    have he : e = .indexError := firstChars_error_val hfc
    subst he
    rw [hfc] at heq
    have hnotall : ¬ ∀ t ∈ ts, t.asStr ≠ [] := by
      intro hall
      rcases (firstChars_ok_iff ts).mpr hall with ⟨cs, hcs⟩
      rw [hfc] at hcs
      cases hcs
    refine ⟨?_, ?_, ?_⟩
    · refine iff_of_false (fun ⟨st, hst⟩ => by rw [heq] at hst; cases hst) ?_
      rintro ⟨_, _, _, ts2, hts2, _, hstr2⟩
      rw [hts] at hts2
      injection hts2 with hl
      injection hl with hl2
      subst hl2
      refine hnotall fun t ht => ?_
      rcases hstr2 t ht with ⟨s, rfl, hsne⟩
      simpa [JValue.asStr] using hsne
    · refine iff_of_true heq ⟨hspec1, hspec2, hspec3, ts, hts, htsne, htstr, ?_⟩
      push_neg at hnotall
      rcases hnotall with ⟨t, ht, hempty⟩
      rcases htstr t ht with ⟨s, rfl⟩
      simp only [JValue.asStr] at hempty
      exact ⟨.str s, ht, by rw [hempty]⟩
    · intro st hst
      rw [heq] at hst
      cases hst

/-- A result entry whose four fields are all present with the types the claim
names — `id` is a string (the empty one), `url` a string, `created` an
integer, `tags` a non-empty list of non-empty strings. -/
def emptyIdEntry : ResultEntry :=
  ⟨some (.str []), some (.str ['u']), some (.int 1), some (.list [.str ['x']])⟩

/-- C4 counterexample: no field of `emptyIdEntry` is missing or wrongly typed,
yet the parser fails with an assertion error, because the `assert`s also
require truthiness and the empty string is falsy; so "a fatal assertion
failure if and only if some field is missing or wrongly typed" is false. -/
theorem C4_counterexample :
    parseResult emptyIdEntry = .error .assertionError
    ∧ (emptyIdEntry.id.getD .null).isStr = true :=
  ⟨rfl, rfl⟩

/-- Witness for the corrected C4 at a concrete well-formed result entry. -/
theorem C4_strict_result_validation_witness :
    (⟨['i'], ['x'], ['u'], (1 : Int)⟩ : EmojiKitchenSticker).symbols.Nodup
    ∧ ('x' ∈ (⟨['i'], ['x'], ['u'], (1 : Int)⟩ : EmojiKitchenSticker).symbols
        ↔ ∃ t ∈ [JValue.str ['x']], ∃ s, t = .str ('x' :: s)) := by
  have h := (C4_strict_result_validation
    ⟨some (.str ['i']), some (.str ['u']), some (.int 1),
      some (.list [.str ['x']])⟩).2.2
    ⟨['i'], ['x'], ['u'], 1⟩ rfl [.str ['x']] rfl
  exact ⟨h.1, h.2 'x'⟩

end EmojiKitchenScan
